import Mathlib

/-!
Verification of the ballot-decoding pipeline of `src/bin/election2016.rs`
(2016 Australian Senate election data processing).

Modelling conventions:
* Rust `u32` values are Lean `Nat`s; where the source performs a truncating
  cast (`id as u32`) the model takes the value modulo 2^32 explicitly.
* `HashMap<K, V>` is modelled as an association list with `insertKV`
  realising `HashMap::insert` (replace the binding for an existing key,
  otherwise add a new binding).  The canonical entry order is insertion
  order; where a claim depends on the map's unspecified iteration order the
  functions are additionally parameterised by a reordering function.
* A Rust panic (out-of-bounds slice index, `Vec::split_off` past the end)
  is modelled as the `Option.none` result; normal completion is `some`,
  carrying `Except.ok` for success and `Except.error` for the error values
  the source constructs.
* Code of the repository that lives in the `aus_senate` library crate and
  is not under `src/` (`pref_map_to_vec`, the `Group`, `Candidate` and
  error types, `MultiBallot::single`) is modelled from the spec; each such
  definition carries a doc comment saying so.
-/

deriving instance DecidableEq for Except

namespace Election2016

abbrev CandidateId := Nat

/-- Modelled from the spec: the `Group` (ticket) record of the `aus_senate`
crate is not under `src/`.  Spec §3: "{name, state, ordered list of member
CandidateId}".  The decoder only reads `candidate_ids`. -/
structure Group where
  name : String
  state : String
  candidate_ids : List CandidateId
  deriving DecidableEq

/-- Modelled from the spec: the `BallotParseErr` type of the `aus_senate`
crate is not under `src/`.  The source constructs exactly the values
`InvalidBallot("Pref not an int")`, `InvalidBallot("both valid")`,
`InvalidBallot("neither valid")` and `InputError(e)`; the spec's tags
`NonIntegerPreference`, `BothSectionsMarked`, `NeitherSectionMarked` and
`UnderlyingRecordError` name these four shapes (see the abbreviations
below). -/
inductive BallotParseErr where
  | InvalidBallot : String → BallotParseErr
  | InputError : String → BallotParseErr
  deriving DecidableEq

/-- The spec's `NonIntegerPreference` tag, as realised by the source. -/
def NonIntegerPreference : BallotParseErr := .InvalidBallot "Pref not an int"

/-- The spec's `BothSectionsMarked` tag, as realised by the source. -/
def BothSectionsMarked : BallotParseErr := .InvalidBallot "both valid"

/-- The spec's `NeitherSectionMarked` tag, as realised by the source. -/
def NeitherSectionMarked : BallotParseErr := .InvalidBallot "neither valid"

/-- The spec's `UnderlyingRecordError` tag, as realised by the source. -/
def UnderlyingRecordError (e : String) : BallotParseErr := .InputError e

/-- Model of Rust `str::parse::<u32>`: an optional leading `'+'` followed by
at least one ASCII digit, with every intermediate value (hence the final
value) at most `u32::MAX = 4294967295`; anything else is a parse error. -/
def parseU32 (s : String) : Option Nat :=
  let digits : List Char :=
    match s.toList with
    | '+' :: rest => rest
    | cs => cs
  if digits = [] then none
  else
    digits.foldl
      (fun acc c =>
        match acc with
        | none => none
        | some n =>
          if c.isDigit then
            if n * 10 + (c.toNat - 48) ≤ 4294967295 then
              some (n * 10 + (c.toNat - 48))
            else none
          else none)
      (some 0)

/-- Model of Rust `str::split(',')` on the underlying character list:
maximal runs between commas, so the empty string yields one empty token and
`n` commas yield `n + 1` tokens. -/
def splitCommaChars : List Char → List (List Char)
  | [] => [[]]
  | c :: rest =>
    if c = ',' then [] :: splitCommaChars rest
    else
      match splitCommaChars rest with
      | [] => [[c]]
      | g :: gs => (c :: g) :: gs

/-- The token list of a preference string (`pref_string.split(',')`). -/
def splitComma (s : String) : List String :=
  (splitCommaChars s.toList).map (fun cs => String.mk cs)

/-- Model of `HashMap::insert` on an association list: drop any existing
binding of the key, add the new binding at the end (canonical iteration
order = insertion order of surviving keys). -/
def insertKV {α β : Type} [DecidableEq α] : List (α × β) → α → β → List (α × β)
  | [], k, v => [(k, v)]
  | p :: rest, k, v =>
    if p.1 = k then insertKV rest k v else p :: insertKV rest k v

/-- Stable insertion of one element into a list sorted by a numeric key. -/
def insertSorted {α : Type} (key : α → Nat) (x : α) : List α → List α
  | [] => [x]
  | y :: ys => if key x < key y then x :: y :: ys else y :: insertSorted key x ys

/-- Stable sort by a numeric key (insertion sort; models the source's
stable sorts by preference number). -/
def sortByKey {α : Type} (key : α → Nat) (l : List α) : List α :=
  l.foldl (fun acc x => insertSorted key x acc) []

/-- Modelled from the spec: `aus_senate::util::pref_map_to_vec` is not
under `src/`.  Spec §4.3 step 4: "Result = the mapping's values, ordered by
ascending preference number" — applied to the source's candidate→preference
map this returns the candidates sorted by ascending preference number. -/
def pref_map_to_vec (pref_map : List (CandidateId × Nat)) : List CandidateId :=
  (sortByKey Prod.snd pref_map).map Prod.fst

/-- The below-the-line loop of `ballot_below_the_line` (lines 88–94):
`idx` is the running `enumerate` counter, `m` the accumulated map.
`none` models the panic of the slice index `candidates[idx]`. -/
def btlLoop (candidates : List CandidateId) :
    Nat → List String → List (CandidateId × Nat) →
    Option (Except BallotParseErr (List (CandidateId × Nat)))
  | _, [], m => some (.ok m)
  | idx, pref :: rest, m =>
    if pref.isEmpty then btlLoop candidates (idx + 1) rest m
    else
      match parseU32 pref with
      | none => some (.error (.InvalidBallot "Pref not an int"))
      | some pref_int =>
        match candidates[idx]? with
        | none => none
        | some c => btlLoop candidates (idx + 1) rest (insertKV m c pref_int)

/-- The above-the-line loop of `ballot_above_the_line` (lines 103–109):
the map is keyed by the parsed preference number and stores the group's
whole candidate list.  `none` models the panic of `groups[group_idx]`. -/
def atlLoop (groups : List Group) :
    Nat → List String → List (Nat × List CandidateId) →
    Option (Except BallotParseErr (List (Nat × List CandidateId)))
  | _, [], m => some (.ok m)
  | group_idx, pref :: rest, m =>
    if pref.isEmpty then atlLoop groups (group_idx + 1) rest m
    else
      match parseU32 pref with
      | none => some (.error (.InvalidBallot "Pref not an int"))
      | some pref_int =>
        match groups[group_idx]? with
        | none => none
        | some g => atlLoop groups (group_idx + 1) rest (insertKV m pref_int g.candidate_ids)

/-- Source `ballot_below_the_line` (lines 85–97), parameterised by the
hash map's iteration order: `σ` reorders the map's entries before
`pref_map_to_vec` consumes them (the canonical model uses `σ = id`). -/
def ballot_below_the_lineOrd
    (σ : List (CandidateId × Nat) → List (CandidateId × Nat))
    (raw_prefs : List String) (candidates : List CandidateId) :
    Option (Except BallotParseErr (List CandidateId)) :=
  match btlLoop candidates 0 raw_prefs [] with
  | none => none
  | some (.error e) => some (.error e)
  | some (.ok pref_map) => some (.ok (pref_map_to_vec (σ pref_map)))

/-- Source `ballot_below_the_line` with the canonical (insertion-order)
iteration order. -/
def ballot_below_the_line (raw_prefs : List String) (candidates : List CandidateId) :
    Option (Except BallotParseErr (List CandidateId)) :=
  ballot_below_the_lineOrd id raw_prefs candidates

/-- Source `ballot_above_the_line` (lines 100–118), parameterised by the
hash map's iteration order `σ`: the entry list is reordered before the
stable sort by preference number, then the groups' candidate lists are
concatenated with `extend_from_slice` (the `foldl`). -/
def ballot_above_the_lineOrd
    (σ : List (Nat × List CandidateId) → List (Nat × List CandidateId))
    (raw_prefs : List String) (groups : List Group) :
    Option (Except BallotParseErr (List CandidateId)) :=
  match atlLoop groups 0 raw_prefs [] with
  | none => none
  | some (.error e) => some (.error e)
  | some (.ok pref_map) =>
    let flat_pref_map := sortByKey Prod.fst (σ pref_map)
    some (.ok (flat_pref_map.foldl (fun prefs p => prefs ++ p.2) []))

/-- Source `ballot_above_the_line` with the canonical iteration order. -/
def ballot_above_the_line (raw_prefs : List String) (groups : List Group) :
    Option (Except BallotParseErr (List CandidateId)) :=
  ballot_above_the_lineOrd id raw_prefs groups

/-- Source `is_valid` closure (line 132): a section is marked when any of
its tokens is non-empty. -/
def is_valid (prefs : List String) : Bool :=
  prefs.any (fun s => !s.isEmpty)

/-- Source `pref_string_to_ballot` (lines 122–140), parameterised by the
iteration orders of the two hash maps.  The `none` on a short token list
models the panic of `Vec::split_off(groups.len())` when the split point
exceeds the vector's length. -/
def pref_string_to_ballotOrd
    (σb : List (CandidateId × Nat) → List (CandidateId × Nat))
    (σa : List (Nat × List CandidateId) → List (Nat × List CandidateId))
    (pref_string : String) (groups : List Group) (candidates : List CandidateId) :
    Option (Except BallotParseErr (List CandidateId)) :=
  let toks := splitComma pref_string
  if toks.length < groups.length then none
  else
    let above_the_line := toks.take groups.length
    let below_the_line := toks.drop groups.length
    match is_valid above_the_line, is_valid below_the_line with
    | true, false => ballot_above_the_lineOrd σa above_the_line groups
    | false, true => ballot_below_the_lineOrd σb below_the_line candidates
    | true, true => some (.error (.InvalidBallot "both valid"))
    | false, false => some (.error (.InvalidBallot "neither valid"))

/-- Source `pref_string_to_ballot` with the canonical iteration orders. -/
def pref_string_to_ballot (pref_string : String) (groups : List Group)
    (candidates : List CandidateId) :
    Option (Except BallotParseErr (List CandidateId)) :=
  pref_string_to_ballotOrd id id pref_string groups candidates

/-- Source `CandidateRow` (lines 17–44): one decoded record of the
candidates CSV file. -/
structure CandidateRow where
  txn_nm : String
  nom_ty : String
  state_ab : String
  div_nm : String
  ticket : String
  ballot_position : Nat
  surname : String
  other_names : String
  party : String
  occupation : String
  address_1 : String
  address_2 : String
  postcode : String
  suburb : String
  address_state : String
  contact_work_ph : String
  contact_home_ph : String
  postal_address_1 : String
  postal_address_2 : String
  postal_suburb : String
  postal_postcode : String
  contact_fax : String
  postal_state_ab : String
  contact_mobile : String
  contact_email : String
  deriving DecidableEq

/-- Modelled from the spec: the `Candidate` record of the `aus_senate`
crate is not under `src/`.  Spec §3: "{id, surname, given names, raw ticket
label, party, state code}"; the source populates exactly these six fields. -/
structure Candidate where
  id : Nat
  surname : String
  other_names : String
  group_name : String
  party : String
  state : String
  deriving DecidableEq

/-- The loop of `parse_candidates_file` (lines 50–63): `id` is the
`enumerate` counter over ALL decoded rows; a row whose `nom_ty` is not
`"S"` is skipped (but still advances the counter); a row-level CSV error
aborts the whole parse (the `try!`).  `id as u32` is the truncating cast. -/
def pcfLoop : Nat → List (Except String CandidateRow) → List Candidate →
    Except String (List Candidate)
  | _, [], result => .ok result
  | id, raw_row :: rest, result =>
    match raw_row with
    | .error e => .error e
    | .ok row =>
      if row.nom_ty ≠ "S" then pcfLoop (id + 1) rest result
      else
        pcfLoop (id + 1) rest (result ++
          [{ id := id % 4294967296
             surname := row.surname
             other_names := row.other_names
             group_name := row.ticket
             party := row.party
             state := row.state_ab }])

/-- Source `parse_candidates_file` (lines 46–66), with the CSV reader's
per-row outcomes as input. -/
def parse_candidates_file (rows : List (Except String CandidateRow)) :
    Except String (List Candidate) :=
  pcfLoop 0 rows []

/-- Source `PrefRow` (lines 75–83): one decoded record of the preferences
CSV file. -/
structure PrefRow where
  electorate_name : String
  vote_collection_point : String
  vote_collection_point_id : String
  batch_num : String
  paper_num : String
  preferences : String
  deriving DecidableEq

/-- Modelled from the spec: `MultiBallot` and `MultiBallot::single` of the
`aus_senate` crate are not under `src/`; the spec treats a decoded ballot
as just its ordered CandidateId sequence, so `single` wraps that list. -/
structure MultiBallot where
  prefs : List CandidateId
  deriving DecidableEq

/-- Modelled from the spec: constructor used at line 146 to wrap one
decoded preference list. -/
def MultiBallot.single (prefs : List CandidateId) : MultiBallot :=
  { prefs := prefs }

/-- Source `parse_single_ballot` (lines 142–151): a row-level CSV error
short-circuits to `InputError` without running the decoder; a decoded row's
preference string is decoded and wrapped with `MultiBallot::single`. -/
def parse_single_ballot (raw_row : Except String PrefRow) (groups : List Group)
    (candidates : List CandidateId) :
    Option (Except BallotParseErr MultiBallot) :=
  match raw_row with
  | .ok row =>
    (pref_string_to_ballot row.preferences groups candidates).map
      (fun r => r.map MultiBallot.single)
  | .error e => some (.error (.InputError e))

/-- Source `parse_preferences_file` macro (lines 154–160): map
`parse_single_ballot` over the reader's row outcomes. -/
def parse_preferences_file (rows : List (Except String PrefRow))
    (groups : List Group) (candidates : List CandidateId) :
    List (Option (Except BallotParseErr MultiBallot)) :=
  rows.map (fun raw_row => parse_single_ballot raw_row groups candidates)

/-- The below-the-line map entries the loop produces when it completes:
for each position (counted from `idx`) whose token is non-empty, parses,
and indexes into the candidate list, the pair (candidate, preference). -/
def btl_entries (candidates : List CandidateId) (idx : Nat) (l : List String) :
    List (CandidateId × Nat) :=
  (List.enumFrom idx l).filterMap (fun p =>
    if p.2.isEmpty then none
    else (parseU32 p.2).bind (fun q => (candidates[p.1]?).map (fun c => (c, q))))

/-- The above-the-line map entries the loop produces when it completes:
for each group position whose token is non-empty and parses, the pair
(preference, that group's full candidate list). -/
def atl_entries (groups : List Group) (idx : Nat) (l : List String) :
    List (Nat × List CandidateId) :=
  (List.enumFrom idx l).filterMap (fun p =>
    if p.2.isEmpty then none
    else (parseU32 p.2).bind (fun q => (groups[p.1]?).map (fun g => (q, g.candidate_ids))))

/-- Follows the spec's words (§4.3 step 5): take each numbered group's
entire candidate list, visit groups in ascending preference-number order,
and concatenate. -/
def atl_spec_output (above : List String) (groups : List Group) :
    List CandidateId :=
  ((sortByKey Prod.fst (atl_entries groups 0 above)).map Prod.snd).flatten

/-- Follows the spec's words (§8): the candidates at the non-empty
below-the-line token positions, in token-position order. -/
def btl_selected (below : List String) (candidates : List CandidateId) :
    List CandidateId :=
  (btl_entries candidates 0 below).map Prod.fst

/-! Infrastructure: the stable insertion sort. -/

theorem insertSorted_perm {α : Type} (key : α → Nat) (x : α) (l : List α) :
    List.Perm (insertSorted key x l) (x :: l) := by
  induction l with
  | nil => exact List.Perm.refl _
  | cons y ys ih =>
    simp only [insertSorted]
    split
    · exact List.Perm.refl _
    · exact (ih.cons y).trans (List.Perm.swap x y ys)

theorem sortFold_perm {α : Type} (key : α → Nat) (l : List α) :
    ∀ acc : List α,
      List.Perm (l.foldl (fun a y => insertSorted key y a) acc) (acc ++ l) := by
  induction l with
  | nil => intro acc; simp
  | cons x xs ih =>
    intro acc
    simp only [List.foldl_cons]
    refine ((ih _).trans ?_)
    refine (((insertSorted_perm key x acc).append_right xs).trans ?_)
    exact (List.perm_middle).symm

theorem sortByKey_perm {α : Type} (key : α → Nat) (l : List α) :
    List.Perm (sortByKey key l) l := by
  simpa using sortFold_perm key l []

theorem insertSorted_pairwise {α : Type} (key : α → Nat) (x : α) (l : List α)
    (h : l.Pairwise (fun a b => key a ≤ key b)) :
    (insertSorted key x l).Pairwise (fun a b => key a ≤ key b) := by
  induction l with
  | nil => simp [insertSorted]
  | cons y ys ih =>
    rcases List.pairwise_cons.mp h with ⟨hy, hys⟩
    simp only [insertSorted]
    split
    · next hlt =>
      refine List.pairwise_cons.mpr ⟨?_, h⟩
      intro b hb
      rcases List.mem_cons.mp hb with rfl | hb'
      · exact Nat.le_of_lt hlt
      · exact Nat.le_trans (Nat.le_of_lt hlt) (hy b hb')
    · next hge =>
      refine List.pairwise_cons.mpr ⟨?_, ih hys⟩
      intro b hb
      rcases List.mem_cons.mp ((insertSorted_perm key x ys).mem_iff.mp hb) with rfl | hb'
      · exact Nat.le_of_not_lt hge
      · exact hy b hb'

theorem sortFold_pairwise {α : Type} (key : α → Nat) (l : List α) :
    ∀ acc : List α, acc.Pairwise (fun a b => key a ≤ key b) →
      (l.foldl (fun a y => insertSorted key y a) acc).Pairwise
        (fun a b => key a ≤ key b) := by
  induction l with
  | nil => intro acc h; simpa using h
  | cons x xs ih =>
    intro acc h
    simp only [List.foldl_cons]
    exact ih _ (insertSorted_pairwise key x acc h)

theorem sortByKey_pairwise {α : Type} (key : α → Nat) (l : List α) :
    (sortByKey key l).Pairwise (fun a b => key a ≤ key b) :=
  sortFold_pairwise key l [] List.Pairwise.nil

/-- Two key-sorted lists that are permutations of each other and have
pairwise-distinct keys are equal. -/
theorem eq_of_perm_of_pairwise_le {α : Type} (key : α → Nat) {l₁ l₂ : List α}
    (hp : List.Perm l₁ l₂)
    (h₁ : l₁.Pairwise (fun a b => key a ≤ key b))
    (h₂ : l₂.Pairwise (fun a b => key a ≤ key b))
    (hn : (l₁.map key).Nodup) : l₁ = l₂ := by
  have hne₁ : l₁.Pairwise (fun a b => key a ≠ key b) := List.pairwise_map.mp hn
  have hn₂ : (l₂.map key).Nodup := ((hp.map key).nodup_iff).mp hn
  have hne₂ : l₂.Pairwise (fun a b => key a ≠ key b) := List.pairwise_map.mp hn₂
  have hlt₁ : l₁.Pairwise (fun a b => key a < key b) :=
    (h₁.and hne₁).imp (fun h => Nat.lt_of_le_of_ne h.1 h.2)
  have hlt₂ : l₂.Pairwise (fun a b => key a < key b) :=
    (h₂.and hne₂).imp (fun h => Nat.lt_of_le_of_ne h.1 h.2)
  haveI : IsAntisymm α (fun a b => key a < key b) :=
    ⟨fun _ _ hab hba => absurd hba (Nat.lt_asymm hab)⟩
  exact List.eq_of_perm_of_sorted hp hlt₁ hlt₂

/-- Sorting two permutations of each other by a key that is pairwise
distinct yields the same list. -/
theorem sortByKey_eq_of_perm {α : Type} (key : α → Nat) {l₁ l₂ : List α}
    (hp : List.Perm l₁ l₂) (hn : (l₁.map key).Nodup) :
    sortByKey key l₁ = sortByKey key l₂ := by
  refine eq_of_perm_of_pairwise_le key
    (((sortByKey_perm key l₁).trans hp).trans (sortByKey_perm key l₂).symm)
    (sortByKey_pairwise key l₁) (sortByKey_pairwise key l₂) ?_
  exact (((sortByKey_perm key l₁).map key).nodup_iff).mpr hn

/-- A list already sorted by a pairwise-distinct key is fixed by the sort. -/
theorem sortByKey_eq_self {α : Type} (key : α → Nat) {l : List α}
    (hs : l.Pairwise (fun a b => key a ≤ key b)) (hn : (l.map key).Nodup) :
    sortByKey key l = l := by
  refine eq_of_perm_of_pairwise_le key (sortByKey_perm key l)
    (sortByKey_pairwise key l) hs ?_
  exact (((sortByKey_perm key l).map key).nodup_iff).mpr hn

/-! Infrastructure: the association-list model of the hash map. -/

theorem insertKV_of_not_mem {α β : Type} [DecidableEq α] (k : α) (v : β) :
    ∀ m : List (α × β), k ∉ m.map Prod.fst → insertKV m k v = m ++ [(k, v)] := by
  intro m
  induction m with
  | nil => intro _; rfl
  | cons p rest ih =>
    intro h
    simp only [List.map_cons, List.mem_cons] at h
    push_neg at h
    simp only [insertKV, if_neg (Ne.symm h.1)]
    rw [ih h.2]
    rfl

theorem mem_map_fst_insertKV {α β : Type} [DecidableEq α] (k : α) (v : β) (a : α) :
    ∀ m : List (α × β),
      a ∈ (insertKV m k v).map Prod.fst ↔ a ∈ m.map Prod.fst ∨ a = k := by
  intro m
  induction m with
  | nil => simp [insertKV]
  | cons p rest ih =>
    simp only [insertKV]
    split
    · next hpk =>
      rw [ih]
      simp only [List.map_cons, List.mem_cons, hpk]
      tauto
    · simp only [List.map_cons, List.mem_cons, ih]
      tauto

theorem insertKV_keys_nodup {α β : Type} [DecidableEq α] (k : α) (v : β) :
    ∀ m : List (α × β), (m.map Prod.fst).Nodup →
      ((insertKV m k v).map Prod.fst).Nodup := by
  intro m
  induction m with
  | nil => intro _; simp [insertKV]
  | cons p rest ih =>
    intro h
    simp only [List.map_cons, List.nodup_cons] at h
    obtain ⟨hp, hrest⟩ := h
    simp only [insertKV]
    split
    · exact ih hrest
    · next hpk =>
      simp only [List.map_cons]
      refine List.nodup_cons.mpr ⟨?_, ih hrest⟩
      intro hmem
      rcases (mem_map_fst_insertKV k v p.1 rest).mp hmem with h' | h'
      · exact hp h'
      · exact hpk h'

/-! Infrastructure: facts about the below-the-line loop. -/

theorem isEmpty_false_of_ne {s : String} (h : s ≠ "") : s.isEmpty = false :=
  Bool.eq_false_iff.mpr (fun h' => h ((String.isEmpty_iff s).mp h'))

theorem ne_empty_of_not_isEmpty {s : String} (h : ¬s.isEmpty = true) : s ≠ "" :=
  fun he => h ((String.isEmpty_iff s).mpr he)

theorem btlLoop_isSome (candidates : List CandidateId) :
    ∀ (l : List String) (idx : Nat) (m : List (CandidateId × Nat)),
      (∀ p ∈ List.enumFrom idx l, p.2 ≠ "" → p.1 < candidates.length) →
      (btlLoop candidates idx l m).isSome := by
  intro l
  induction l with
  | nil =>
    intro idx m _
    simp [btlLoop]
  | cons t rest ih =>
    intro idx m hr
    have hshift : ∀ p ∈ List.enumFrom (idx + 1) rest, p.2 ≠ "" →
        p.1 < candidates.length :=
      fun p hp => hr p (List.mem_cons_of_mem _ hp)
    simp only [btlLoop]
    by_cases ht : t.isEmpty
    · simp only [ht, if_true]
      exact ih (idx + 1) m hshift
    · simp only [ht, if_false]
      cases hparse : parseU32 t with
      | none => simp
      | some q =>
        have hidx : idx < candidates.length :=
          hr (idx, t) (List.mem_cons_self _ _) (ne_empty_of_not_isEmpty ht)
        obtain ⟨c, hc⟩ : ∃ c, candidates[idx]? = some c :=
          ⟨_, List.getElem?_eq_getElem hidx⟩
        rw [hc]
        exact ih (idx + 1) _ hshift

theorem btlLoop_err (candidates : List CandidateId) :
    ∀ (l : List String) (idx : Nat) (m : List (CandidateId × Nat)),
      (∃ p ∈ List.enumFrom idx l, p.2 ≠ "" ∧ parseU32 p.2 = none) →
      (∀ p ∈ List.enumFrom idx l, p.2 ≠ "" → (parseU32 p.2).isSome →
        p.1 < candidates.length) →
      btlLoop candidates idx l m = some (.error (.InvalidBallot "Pref not an int")) := by
  intro l
  induction l with
  | nil =>
    intro idx m hex _
    obtain ⟨p, hp, -⟩ := hex
    simp [List.enumFrom] at hp
  | cons t rest ih =>
    intro idx m hex hr
    have hshift : ∀ p ∈ List.enumFrom (idx + 1) rest, p.2 ≠ "" →
        (parseU32 p.2).isSome → p.1 < candidates.length :=
      fun p hp => hr p (List.mem_cons_of_mem _ hp)
    simp only [btlLoop]
    by_cases ht : t.isEmpty
    · simp only [ht, if_true]
      refine ih (idx + 1) m ?_ hshift
      obtain ⟨p, hp, hne, hnp⟩ := hex
      rcases List.mem_cons.mp hp with rfl | hp'
      · exact absurd ((String.isEmpty_iff t).mp ht) hne
      · exact ⟨p, hp', hne, hnp⟩
    · simp only [ht, if_false]
      cases hparse : parseU32 t with
      | none => rfl
      | some q =>
        have hidx : idx < candidates.length := by
          refine hr (idx, t) (List.mem_cons_self _ _) (ne_empty_of_not_isEmpty ht) ?_
          simp [hparse]
        obtain ⟨c, hc⟩ : ∃ c, candidates[idx]? = some c :=
          ⟨_, List.getElem?_eq_getElem hidx⟩
        rw [hc]
        refine ih (idx + 1) _ ?_ hshift
        obtain ⟨p, hp, hne, hnp⟩ := hex
        rcases List.mem_cons.mp hp with rfl | hp'
        · rw [hparse] at hnp; cases hnp
        · exact ⟨p, hp', hne, hnp⟩

theorem btlLoop_ok_range (candidates : List CandidateId) :
    ∀ (l : List String) (idx : Nat) (m final : List (CandidateId × Nat)),
      btlLoop candidates idx l m = some (.ok final) →
      ∀ p ∈ List.enumFrom idx l, p.2 ≠ "" →
        (parseU32 p.2).isSome ∧ p.1 < candidates.length := by
  intro l
  induction l with
  | nil =>
    intro idx m final _ p hp
    simp [List.enumFrom] at hp
  | cons t rest ih =>
    intro idx m final hok p hp hne
    simp only [btlLoop] at hok
    by_cases ht : t.isEmpty
    · simp only [ht, if_true] at hok
      rcases List.mem_cons.mp hp with rfl | hp'
      · exact absurd ((String.isEmpty_iff t).mp ht) hne
      · exact ih (idx + 1) m final hok p hp' hne
    · simp only [ht, if_false] at hok
      cases hparse : parseU32 t with
      | none => rw [hparse] at hok; cases hok
      | some q =>
        rw [hparse] at hok
        cases hc : candidates[idx]? with
        | none => rw [hc] at hok; cases hok
        | some c =>
          rw [hc] at hok
          rcases List.mem_cons.mp hp with rfl | hp'
          · refine ⟨by simp [hparse], ?_⟩
            exact (List.getElem?_eq_some_iff.mp hc).1
          · exact ih (idx + 1) _ final hok p hp' hne

theorem btlLoop_ok_eq (candidates : List CandidateId) (hnd : candidates.Nodup) :
    ∀ (l : List String) (idx : Nat) (m final : List (CandidateId × Nat)),
      (∀ p ∈ m, ∃ pos, pos < idx ∧ candidates[pos]? = some p.1) →
      btlLoop candidates idx l m = some (.ok final) →
      final = m ++ btl_entries candidates idx l := by
  intro l
  induction l with
  | nil =>
    intro idx m final _ hok
    simp only [btlLoop] at hok
    cases hok
    simp [btl_entries, List.enumFrom]
  | cons t rest ih =>
    intro idx m final hm hok
    simp only [btlLoop] at hok
    by_cases ht : t.isEmpty
    · rw [if_pos ht] at hok
      have hents : btl_entries candidates idx (t :: rest) =
          btl_entries candidates (idx + 1) rest := by
        simp [btl_entries, List.enumFrom, ht]
      rw [hents]
      exact ih (idx + 1) m final
        (fun p hp => (hm p hp).imp (fun pos h => ⟨Nat.lt_succ_of_lt h.1, h.2⟩)) hok
    · rw [if_neg ht] at hok
      cases hparse : parseU32 t with
      | none => rw [hparse] at hok; cases hok
      | some q =>
        rw [hparse] at hok
        cases hc : candidates[idx]? with
        | none => rw [hc] at hok; cases hok
        | some c =>
          rw [hc] at hok
          replace hok : btlLoop candidates (idx + 1) rest (insertKV m c q) =
              some (.ok final) := hok
          have hents : btl_entries candidates idx (t :: rest) =
              (c, q) :: btl_entries candidates (idx + 1) rest := by
            simp [btl_entries, List.enumFrom, ht, hparse, hc]
          have hfresh : c ∉ m.map Prod.fst := by
            intro hcm
            obtain ⟨p, hpm, hpc⟩ := List.mem_map.mp hcm
            obtain ⟨pos, hpos, hpget⟩ := hm p hpm
            rw [hpc] at hpget
            have : pos = idx :=
              List.getElem?_inj (List.getElem?_eq_some_iff.mp hpget).1 hnd
                (hpget.trans hc.symm)
            omega
          have hm' : ∀ p ∈ m ++ [(c, q)], ∃ pos, pos < idx + 1 ∧
              candidates[pos]? = some p.1 := by
            intro p hp
            rcases List.mem_append.mp hp with hp' | hp'
            · exact (hm p hp').imp (fun pos h => ⟨Nat.lt_succ_of_lt h.1, h.2⟩)
            · rcases List.mem_singleton.mp hp' with rfl
              exact ⟨idx, Nat.lt_succ_self idx, hc⟩
          rw [insertKV_of_not_mem c q m hfresh] at hok
          rw [hents, ih (idx + 1) (m ++ [(c, q)]) final hm' hok]
          simp

theorem btlLoop_ok_keys_mono (candidates : List CandidateId) :
    ∀ (l : List String) (idx : Nat) (m final : List (CandidateId × Nat)),
      btlLoop candidates idx l m = some (.ok final) →
      ∀ a ∈ m.map Prod.fst, a ∈ final.map Prod.fst := by
  intro l
  induction l with
  | nil =>
    intro idx m final hok
    simp only [btlLoop] at hok
    cases hok
    exact fun a ha => ha
  | cons t rest ih =>
    intro idx m final hok
    simp only [btlLoop] at hok
    by_cases ht : t.isEmpty
    · rw [if_pos ht] at hok
      exact ih (idx + 1) m final hok
    · rw [if_neg ht] at hok
      cases hparse : parseU32 t with
      | none => rw [hparse] at hok; cases hok
      | some q =>
        rw [hparse] at hok
        cases hc : candidates[idx]? with
        | none => rw [hc] at hok; cases hok
        | some c =>
          rw [hc] at hok
          replace hok : btlLoop candidates (idx + 1) rest (insertKV m c q) =
              some (.ok final) := hok
          intro a ha
          exact ih (idx + 1) _ final hok a
            ((mem_map_fst_insertKV c q a m).mpr (Or.inl ha))

theorem btlLoop_ok_keys_nodup (candidates : List CandidateId) :
    ∀ (l : List String) (idx : Nat) (m final : List (CandidateId × Nat)),
      (m.map Prod.fst).Nodup →
      btlLoop candidates idx l m = some (.ok final) →
      (final.map Prod.fst).Nodup := by
  intro l
  induction l with
  | nil =>
    intro idx m final hm hok
    simp only [btlLoop] at hok
    cases hok
    exact hm
  | cons t rest ih =>
    intro idx m final hm hok
    simp only [btlLoop] at hok
    by_cases ht : t.isEmpty
    · rw [if_pos ht] at hok
      exact ih (idx + 1) m final hm hok
    · rw [if_neg ht] at hok
      cases hparse : parseU32 t with
      | none => rw [hparse] at hok; cases hok
      | some q =>
        rw [hparse] at hok
        cases hc : candidates[idx]? with
        | none => rw [hc] at hok; cases hok
        | some c =>
          rw [hc] at hok
          replace hok : btlLoop candidates (idx + 1) rest (insertKV m c q) =
              some (.ok final) := hok
          exact ih (idx + 1) _ final (insertKV_keys_nodup c q m hm) hok

theorem btlLoop_ok_mem (candidates : List CandidateId) :
    ∀ (l : List String) (idx : Nat) (m final : List (CandidateId × Nat)),
      btlLoop candidates idx l m = some (.ok final) →
      ∀ p ∈ List.enumFrom idx l, p.2 ≠ "" →
        ∃ c, candidates[p.1]? = some c ∧ c ∈ final.map Prod.fst := by
  intro l
  induction l with
  | nil =>
    intro idx m final _ p hp
    simp [List.enumFrom] at hp
  | cons t rest ih =>
    intro idx m final hok p hp hne
    simp only [btlLoop] at hok
    by_cases ht : t.isEmpty
    · rw [if_pos ht] at hok
      rcases List.mem_cons.mp hp with rfl | hp'
      · exact absurd ((String.isEmpty_iff t).mp ht) hne
      · exact ih (idx + 1) m final hok p hp' hne
    · rw [if_neg ht] at hok
      cases hparse : parseU32 t with
      | none => rw [hparse] at hok; cases hok
      | some q =>
        rw [hparse] at hok
        cases hc : candidates[idx]? with
        | none => rw [hc] at hok; cases hok
        | some c =>
          rw [hc] at hok
          replace hok : btlLoop candidates (idx + 1) rest (insertKV m c q) =
              some (.ok final) := hok
          rcases List.mem_cons.mp hp with rfl | hp'
          · refine ⟨c, hc, ?_⟩
            exact btlLoop_ok_keys_mono candidates rest (idx + 1) _ final hok c
              ((mem_map_fst_insertKV c q c m).mpr (Or.inr rfl))
          · exact ih (idx + 1) _ final hok p hp' hne

/-! Infrastructure: facts about the above-the-line loop. -/

theorem atlLoop_isSome (groups : List Group) :
    ∀ (l : List String) (idx : Nat) (m : List (Nat × List CandidateId)),
      (∀ p ∈ List.enumFrom idx l, p.2 ≠ "" → p.1 < groups.length) →
      (atlLoop groups idx l m).isSome := by
  intro l
  induction l with
  | nil =>
    intro idx m _
    simp [atlLoop]
  | cons t rest ih =>
    intro idx m hr
    have hshift : ∀ p ∈ List.enumFrom (idx + 1) rest, p.2 ≠ "" →
        p.1 < groups.length :=
      fun p hp => hr p (List.mem_cons_of_mem _ hp)
    simp only [atlLoop]
    by_cases ht : t.isEmpty
    · rw [if_pos ht]
      exact ih (idx + 1) m hshift
    · rw [if_neg ht]
      cases hparse : parseU32 t with
      | none => simp
      | some q =>
        have hidx : idx < groups.length :=
          hr (idx, t) (List.mem_cons_self _ _) (ne_empty_of_not_isEmpty ht)
        obtain ⟨g, hg⟩ : ∃ g, groups[idx]? = some g :=
          ⟨_, List.getElem?_eq_getElem hidx⟩
        rw [hg]
        exact ih (idx + 1) _ hshift

theorem atlLoop_err (groups : List Group) :
    ∀ (l : List String) (idx : Nat) (m : List (Nat × List CandidateId)),
      (∃ p ∈ List.enumFrom idx l, p.2 ≠ "" ∧ parseU32 p.2 = none) →
      (∀ p ∈ List.enumFrom idx l, p.2 ≠ "" → (parseU32 p.2).isSome →
        p.1 < groups.length) →
      atlLoop groups idx l m = some (.error (.InvalidBallot "Pref not an int")) := by
  intro l
  induction l with
  | nil =>
    intro idx m hex _
    obtain ⟨p, hp, -⟩ := hex
    simp [List.enumFrom] at hp
  | cons t rest ih =>
    intro idx m hex hr
    have hshift : ∀ p ∈ List.enumFrom (idx + 1) rest, p.2 ≠ "" →
        (parseU32 p.2).isSome → p.1 < groups.length :=
      fun p hp => hr p (List.mem_cons_of_mem _ hp)
    simp only [atlLoop]
    by_cases ht : t.isEmpty
    · rw [if_pos ht]
      refine ih (idx + 1) m ?_ hshift
      obtain ⟨p, hp, hne, hnp⟩ := hex
      rcases List.mem_cons.mp hp with rfl | hp'
      · exact absurd ((String.isEmpty_iff t).mp ht) hne
      · exact ⟨p, hp', hne, hnp⟩
    · rw [if_neg ht]
      cases hparse : parseU32 t with
      | none => rfl
      | some q =>
        have hidx : idx < groups.length := by
          refine hr (idx, t) (List.mem_cons_self _ _) (ne_empty_of_not_isEmpty ht) ?_
          simp [hparse]
        obtain ⟨g, hg⟩ : ∃ g, groups[idx]? = some g :=
          ⟨_, List.getElem?_eq_getElem hidx⟩
        rw [hg]
        refine ih (idx + 1) _ ?_ hshift
        obtain ⟨p, hp, hne, hnp⟩ := hex
        rcases List.mem_cons.mp hp with rfl | hp'
        · rw [hparse] at hnp; cases hnp
        · exact ⟨p, hp', hne, hnp⟩

theorem atlLoop_ok_keys_nodup (groups : List Group) :
    ∀ (l : List String) (idx : Nat) (m final : List (Nat × List CandidateId)),
      (m.map Prod.fst).Nodup →
      atlLoop groups idx l m = some (.ok final) →
      (final.map Prod.fst).Nodup := by
  intro l
  induction l with
  | nil =>
    intro idx m final hm hok
    simp only [atlLoop] at hok
    cases hok
    exact hm
  | cons t rest ih =>
    intro idx m final hm hok
    simp only [atlLoop] at hok
    by_cases ht : t.isEmpty
    · rw [if_pos ht] at hok
      exact ih (idx + 1) m final hm hok
    · rw [if_neg ht] at hok
      cases hparse : parseU32 t with
      | none => rw [hparse] at hok; cases hok
      | some q =>
        rw [hparse] at hok
        cases hg : groups[idx]? with
        | none => rw [hg] at hok; cases hok
        | some g =>
          rw [hg] at hok
          replace hok : atlLoop groups (idx + 1) rest
              (insertKV m q g.candidate_ids) = some (.ok final) := hok
          exact ih (idx + 1) _ final (insertKV_keys_nodup q g.candidate_ids m hm) hok

theorem atlLoop_ok_eq (groups : List Group) :
    ∀ (l : List String) (idx : Nat) (m : List (Nat × List CandidateId)),
      (∀ p ∈ List.enumFrom idx l, p.2 ≠ "" →
        (parseU32 p.2).isSome ∧ p.1 < groups.length) →
      (∀ k ∈ m.map Prod.fst, k ∉ (atl_entries groups idx l).map Prod.fst) →
      ((atl_entries groups idx l).map Prod.fst).Nodup →
      atlLoop groups idx l m = some (.ok (m ++ atl_entries groups idx l)) := by
  intro l
  induction l with
  | nil =>
    intro idx m _ _ _
    simp [atlLoop, atl_entries, List.enumFrom]
  | cons t rest ih =>
    intro idx m hpr hfresh hnew
    simp only [atlLoop]
    by_cases ht : t.isEmpty
    · have hents : atl_entries groups idx (t :: rest) =
          atl_entries groups (idx + 1) rest := by
        simp [atl_entries, List.enumFrom, ht]
      rw [if_pos ht, hents]
      rw [hents] at hfresh hnew
      exact ih (idx + 1) m (fun p hp => hpr p (List.mem_cons_of_mem _ hp))
        hfresh hnew
    · rw [if_neg ht]
      have hne : t ≠ "" := ne_empty_of_not_isEmpty ht
      obtain ⟨hps, hidx⟩ := hpr (idx, t) (List.mem_cons_self _ _) hne
      obtain ⟨q, hparse⟩ := Option.isSome_iff_exists.mp hps
      have hparse' : parseU32 t = some q := hparse
      have hidx' : idx < groups.length := hidx
      obtain ⟨g, hg⟩ : ∃ g, groups[idx]? = some g :=
        ⟨_, List.getElem?_eq_getElem hidx'⟩
      have hents : atl_entries groups idx (t :: rest) =
          (q, g.candidate_ids) :: atl_entries groups (idx + 1) rest := by
        simp [atl_entries, List.enumFrom, ht, hparse', hg]
      rw [hparse', hg]
      show atlLoop groups (idx + 1) rest (insertKV m q g.candidate_ids) =
        some (.ok (m ++ atl_entries groups idx (t :: rest)))
      rw [hents] at hfresh hnew ⊢
      simp only [List.map_cons, List.nodup_cons] at hnew
      have hqm : q ∉ m.map Prod.fst := by
        intro hq
        exact hfresh q hq (by simp)
      have step : insertKV m q g.candidate_ids = m ++ [(q, g.candidate_ids)] :=
        insertKV_of_not_mem q g.candidate_ids m hqm
      have ihres := ih (idx + 1) (m ++ [(q, g.candidate_ids)])
        (fun p hp => hpr p (List.mem_cons_of_mem _ hp))
        (by
          intro k hk
          rw [List.map_append] at hk
          rcases List.mem_append.mp hk with hk' | hk'
          · exact fun hmem => hfresh k hk' (List.mem_cons_of_mem _ hmem)
          · have hkq : k = q := by simpa using hk'
            subst hkq
            exact hnew.1)
        hnew.2
      rw [step, ihres]
      simp

theorem foldl_append_eq_flatten {α β : Type} (f : β → List α) :
    ∀ (L : List β) (acc : List α),
      L.foldl (fun prefs p => prefs ++ f p) acc = acc ++ (L.map f).flatten := by
  intro L
  induction L with
  | nil => intro acc; simp
  | cons x xs ih =>
    intro acc
    simp [ih, List.append_assoc]

/-! Infrastructure: branch dispatch of the decoder. -/

theorem pstbOrd_above (σb : List (CandidateId × Nat) → List (CandidateId × Nat))
    (σa : List (Nat × List CandidateId) → List (Nat × List CandidateId))
    {s : String} {groups : List Group} {candidates : List CandidateId}
    (hlen : groups.length ≤ (splitComma s).length)
    (ha : is_valid ((splitComma s).take groups.length) = true)
    (hb : is_valid ((splitComma s).drop groups.length) = false) :
    pref_string_to_ballotOrd σb σa s groups candidates =
      ballot_above_the_lineOrd σa ((splitComma s).take groups.length) groups := by
  unfold pref_string_to_ballotOrd
  rw [if_neg (Nat.not_lt.mpr hlen)]
  simp only [ha, hb]

theorem pstbOrd_below (σb : List (CandidateId × Nat) → List (CandidateId × Nat))
    (σa : List (Nat × List CandidateId) → List (Nat × List CandidateId))
    {s : String} {groups : List Group} {candidates : List CandidateId}
    (hlen : groups.length ≤ (splitComma s).length)
    (ha : is_valid ((splitComma s).take groups.length) = false)
    (hb : is_valid ((splitComma s).drop groups.length) = true) :
    pref_string_to_ballotOrd σb σa s groups candidates =
      ballot_below_the_lineOrd σb ((splitComma s).drop groups.length) candidates := by
  unfold pref_string_to_ballotOrd
  rw [if_neg (Nat.not_lt.mpr hlen)]
  simp only [ha, hb]

theorem pstbOrd_both (σb : List (CandidateId × Nat) → List (CandidateId × Nat))
    (σa : List (Nat × List CandidateId) → List (Nat × List CandidateId))
    {s : String} {groups : List Group} {candidates : List CandidateId}
    (hlen : groups.length ≤ (splitComma s).length)
    (ha : is_valid ((splitComma s).take groups.length) = true)
    (hb : is_valid ((splitComma s).drop groups.length) = true) :
    pref_string_to_ballotOrd σb σa s groups candidates =
      some (.error (.InvalidBallot "both valid")) := by
  unfold pref_string_to_ballotOrd
  rw [if_neg (Nat.not_lt.mpr hlen)]
  simp only [ha, hb]

theorem pstbOrd_neither (σb : List (CandidateId × Nat) → List (CandidateId × Nat))
    (σa : List (Nat × List CandidateId) → List (Nat × List CandidateId))
    {s : String} {groups : List Group} {candidates : List CandidateId}
    (hlen : groups.length ≤ (splitComma s).length)
    (ha : is_valid ((splitComma s).take groups.length) = false)
    (hb : is_valid ((splitComma s).drop groups.length) = false) :
    pref_string_to_ballotOrd σb σa s groups candidates =
      some (.error (.InvalidBallot "neither valid")) := by
  unfold pref_string_to_ballotOrd
  rw [if_neg (Nat.not_lt.mpr hlen)]
  simp only [ha, hb]

theorem is_valid_eq_true_iff (l : List String) :
    is_valid l = true ↔ ∃ t ∈ l, t ≠ "" := by
  simp [is_valid, Bool.eq_false_iff, String.isEmpty_iff]

theorem is_valid_eq_false_iff (l : List String) :
    is_valid l = false ↔ ∀ t ∈ l, t = "" := by
  simp [is_valid, String.isEmpty_iff]

/-! The claims. -/

/-- C5: for every tokenized preference string that partitions into an
above-the-line section of length `groups.length` and a below-the-line
remainder, marking both sections fails with `BothSectionsMarked`, marking
neither fails with `NeitherSectionMarked`, and otherwise exactly the marked
section's algorithm runs (the decode result is that algorithm's result). -/
theorem C5_section_dispatch (s : String) (groups : List Group)
    (candidates : List CandidateId)
    (hlen : groups.length ≤ (splitComma s).length) :
    (is_valid ((splitComma s).take groups.length) = true →
      is_valid ((splitComma s).drop groups.length) = true →
      pref_string_to_ballot s groups candidates =
        some (.error BothSectionsMarked)) ∧
    (is_valid ((splitComma s).take groups.length) = false →
      is_valid ((splitComma s).drop groups.length) = false →
      pref_string_to_ballot s groups candidates =
        some (.error NeitherSectionMarked)) ∧
    (is_valid ((splitComma s).take groups.length) = true →
      is_valid ((splitComma s).drop groups.length) = false →
      pref_string_to_ballot s groups candidates =
        ballot_above_the_line ((splitComma s).take groups.length) groups) ∧
    (is_valid ((splitComma s).take groups.length) = false →
      is_valid ((splitComma s).drop groups.length) = true →
      pref_string_to_ballot s groups candidates =
        ballot_below_the_line ((splitComma s).drop groups.length) candidates) :=
  ⟨fun ha hb => pstbOrd_both id id hlen ha hb,
   fun ha hb => pstbOrd_neither id id hlen ha hb,
   fun ha hb => pstbOrd_above id id hlen ha hb,
   fun ha hb => pstbOrd_below id id hlen ha hb⟩

/-- Witness for C5 at a concrete input: one group, preference string
"1,1" marks both sections, so decode fails with `BothSectionsMarked`. -/
theorem C5_witness :
    pref_string_to_ballot "1,1" [{ name := "A", state := "X", candidate_ids := [1] }]
      [5] = some (.error BothSectionsMarked) :=
  (C5_section_dispatch "1,1" [{ name := "A", state := "X", candidate_ids := [1] }]
    [5] (by decide)).1 (by decide) (by decide)

/-- C8: whenever the below-the-line algorithm succeeds — in particular on
inputs where two tokens carry the same preference number — the resulting
candidate sequence contains no duplicate CandidateId.  (The reason is not
the spec's overwrite rule but that the map is keyed by candidate, so its
key set, which becomes the output, is duplicate-free by construction.) -/
theorem C8_no_duplicates (raw_prefs : List String) (candidates : List CandidateId)
    (l : List CandidateId)
    (h : ballot_below_the_line raw_prefs candidates = some (.ok l)) :
    l.Nodup := by
  unfold ballot_below_the_line ballot_below_the_lineOrd at h
  cases hloop : btlLoop candidates 0 raw_prefs [] with
  | none => rw [hloop] at h; cases h
  | some r =>
    rw [hloop] at h
    cases r with
    | error e => cases h
    | ok m =>
      replace h : some (Except.ok (pref_map_to_vec m)) =
          some (Except.ok l) := h
      simp only [Option.some.injEq, Except.ok.injEq] at h
      subst h
      have hm : (m.map Prod.fst).Nodup :=
        btlLoop_ok_keys_nodup candidates raw_prefs 0 [] m (by simp) hloop
      have hperm : List.Perm ((sortByKey Prod.snd m).map Prod.fst) (m.map Prod.fst) :=
        (sortByKey_perm Prod.snd m).map Prod.fst
      exact hperm.nodup_iff.mpr hm

/-- Witness for C8 at a concrete input: the two tokens share preference
number 1 and the successful output is duplicate-free. -/
theorem C8_witness : ([10, 11] : List CandidateId).Nodup :=
  C8_no_duplicates ["1", "1"] [10, 11] [10, 11] (by decide)

/-- C10: the stream adapter produces exactly one outcome per input record,
in order (same length, i-th outcome = decode of i-th record); a record
carrying an underlying read error yields `UnderlyingRecordError` and does so
without consulting the decoder's group/candidate inputs at all. -/
theorem C10_stream_adapter (rows : List (Except String PrefRow))
    (groups : List Group) (candidates : List CandidateId) :
    (parse_preferences_file rows groups candidates).length = rows.length ∧
    (∀ i : Nat, (parse_preferences_file rows groups candidates)[i]? =
      (rows[i]?).map (fun raw_row => parse_single_ballot raw_row groups candidates)) ∧
    (∀ (i : Nat) (e : String), rows[i]? = some (.error e) →
      (parse_preferences_file rows groups candidates)[i]? =
        some (some (.error (UnderlyingRecordError e)))) ∧
    (∀ (e : String) (groups' : List Group) (candidates' : List CandidateId),
      parse_single_ballot (.error e) groups candidates =
        parse_single_ballot (.error e) groups' candidates') := by
  refine ⟨List.length_map _ _, fun i => List.getElem?_map .., ?_, fun e _ _ => rfl⟩
  intro i e he
  unfold parse_preferences_file
  rw [List.getElem?_map, he]
  rfl

/-- Witness for C10 at a concrete input: a one-record stream whose record
carries a read error yields exactly `UnderlyingRecordError`. -/
theorem C10_witness :
    (parse_preferences_file [Except.error "boom"] [] [])[0]? =
      some (some (.error (UnderlyingRecordError "boom"))) :=
  (C10_stream_adapter [Except.error "boom"] [] []).2.2.1 0 "boom" rfl

theorem enumFrom_mem_bound {α : Type} {p : Nat × α} {n : Nat} {l : List α}
    (h : p ∈ List.enumFrom n l) : n ≤ p.1 ∧ l[p.1 - n]? = some p.2 := by
  obtain ⟨i, x⟩ := p
  exact List.mk_mem_enumFrom_iff_le_and_getElem?_sub.mp h

theorem enumFrom_mem_of_getElem {α : Type} {l : List α} {i : Nat} {x : α}
    (h : l[i]? = some x) : (i, x) ∈ List.enumFrom 0 l := by
  refine List.mk_mem_enumFrom_iff_le_and_getElem?_sub.mpr ⟨Nat.zero_le i, ?_⟩
  simpa using h

theorem snd_mem_of_enumFrom {α : Type} {p : Nat × α} {n : Nat} {l : List α}
    (h : p ∈ List.enumFrom n l) : p.2 ∈ l := by
  have hb := (enumFrom_mem_bound h).2
  exact List.getElem?_mem hb

/-- Every above-the-line token position indexes into the group list, because
the section is `toks.take groups.length` of a sufficiently long token list. -/
theorem take_pos_lt {s : String} {groups : List Group}
    (hlen : groups.length ≤ (splitComma s).length) :
    ∀ p ∈ List.enumFrom 0 ((splitComma s).take groups.length),
      p.1 < groups.length := by
  intro p hp
  have hb := (enumFrom_mem_bound hp).2
  have hlt := (List.getElem?_eq_some_iff.mp (by simpa using hb)).1
  rw [List.length_take] at hlt
  omega

theorem btlOrd_isSome_of (σ : List (CandidateId × Nat) → List (CandidateId × Nat))
    (raw_prefs : List String) (candidates : List CandidateId)
    (h : (btlLoop candidates 0 raw_prefs []).isSome) :
    ∃ r, ballot_below_the_lineOrd σ raw_prefs candidates = some r := by
  unfold ballot_below_the_lineOrd
  cases hl : btlLoop candidates 0 raw_prefs [] with
  | none => rw [hl] at h; cases h
  | some r =>
    cases r with
    | error e => exact ⟨_, rfl⟩
    | ok m => exact ⟨_, rfl⟩

theorem atlOrd_isSome_of (σ : List (Nat × List CandidateId) → List (Nat × List CandidateId))
    (raw_prefs : List String) (groups : List Group)
    (h : (atlLoop groups 0 raw_prefs []).isSome) :
    ∃ r, ballot_above_the_lineOrd σ raw_prefs groups = some r := by
  unfold ballot_above_the_lineOrd
  cases hl : atlLoop groups 0 raw_prefs [] with
  | none => rw [hl] at h; cases h
  | some r =>
    cases r with
    | error e => exact ⟨_, rfl⟩
    | ok m => exact ⟨_, rfl⟩

/-- C3 counterexample: the decoder is not total.  With two groups and the
empty preference string (one token), the split-off point exceeds the token
count and the source panics (`none`); with no group and no candidate the
single token `"1"` drives the below-the-line slice index out of bounds. -/
theorem C3_counterexample :
    pref_string_to_ballot ""
      [{ name := "A", state := "X", candidate_ids := [1] },
       { name := "B", state := "X", candidate_ids := [2] }] [] = none ∧
    pref_string_to_ballot "1" [] [] = none :=
  ⟨rfl, rfl⟩

/-- C3 amended: decode is total — it returns an ordered candidate list or a
BallotParseError value and does not panic — provided the token count is at
least the number of groups and every non-empty below-the-line token lies
within the candidate list (both hold under the spec's structural invariant
"token count = number of groups + number of candidates"). -/
theorem C3_total (s : String) (groups : List Group) (candidates : List CandidateId)
    (hlen : groups.length ≤ (splitComma s).length)
    (hrange : ∀ (i : Nat) (tok : String),
      ((splitComma s).drop groups.length)[i]? = some tok → tok ≠ "" →
      i < candidates.length) :
    ∃ r, pref_string_to_ballot s groups candidates = some r := by
  show ∃ r, pref_string_to_ballotOrd id id s groups candidates = some r
  cases hva : is_valid ((splitComma s).take groups.length) <;>
    cases hvb : is_valid ((splitComma s).drop groups.length)
  · rw [pstbOrd_neither id id hlen hva hvb]
    exact ⟨_, rfl⟩
  · rw [pstbOrd_below id id hlen hva hvb]
    refine btlOrd_isSome_of id _ candidates ?_
    refine btlLoop_isSome candidates _ 0 [] ?_
    intro p hp hne
    have hb := (enumFrom_mem_bound hp).2
    exact hrange p.1 p.2 (by simpa using hb) hne
  · rw [pstbOrd_above id id hlen hva hvb]
    refine atlOrd_isSome_of id _ groups ?_
    refine atlLoop_isSome groups _ 0 [] ?_
    intro p hp _
    exact take_pos_lt hlen p hp
  · rw [pstbOrd_both id id hlen hva hvb]
    exact ⟨_, rfl⟩

/-- Witness for C3 at a concrete input: the empty string with no groups and
no candidates decodes to a value (the NeitherSectionMarked error). -/
theorem C3_witness : ∃ r, pref_string_to_ballot "" [] [] = some r :=
  C3_total "" [] [] (by decide) (by
    intro i tok h hne
    have h' : ([""] : List String)[i]? = some tok := h
    cases i with
    | zero =>
      have : tok = "" := by simpa using h'.symm
      exact absurd this hne
    | succ j => simp at h')

/-- C7 counterexample: an input whose marked (below-the-line) section
contains the non-numeric token "x" on which decode panics (slice index out
of bounds on the earlier parseable token) instead of failing with
`NonIntegerPreference`. -/
theorem C7_counterexample :
    pref_string_to_ballot "1,x" [] [] = none ∧
    pref_string_to_ballot "1,x" [] [] ≠ some (.error NonIntegerPreference) := by
  decide

/-- C7 amended: a non-empty token of the marked section that does not parse
as a non-negative integer makes decode fail with `NonIntegerPreference`, in
either section alike — provided (below the line) the parseable non-empty
tokens index into the candidate list, so that no panic preempts the error
(automatic above the line; also automatic under the spec's structural
invariant). -/
theorem C7_non_integer (s : String) (groups : List Group)
    (candidates : List CandidateId)
    (hlen : groups.length ≤ (splitComma s).length)
    (h :
      ((∃ p ∈ List.enumFrom 0 ((splitComma s).take groups.length),
          p.2 ≠ "" ∧ parseU32 p.2 = none) ∧
        (∀ t ∈ (splitComma s).drop groups.length, t = "")) ∨
      ((∃ p ∈ List.enumFrom 0 ((splitComma s).drop groups.length),
          p.2 ≠ "" ∧ parseU32 p.2 = none) ∧
        (∀ p ∈ List.enumFrom 0 ((splitComma s).drop groups.length),
          p.2 ≠ "" → (parseU32 p.2).isSome → p.1 < candidates.length) ∧
        (∀ t ∈ (splitComma s).take groups.length, t = ""))) :
    pref_string_to_ballot s groups candidates =
      some (.error NonIntegerPreference) := by
  unfold pref_string_to_ballot
  rcases h with ⟨⟨p, hp, hne, hnp⟩, hbe⟩ | ⟨⟨p, hp, hne, hnp⟩, hr, hae⟩
  · have ha : is_valid ((splitComma s).take groups.length) = true :=
      (is_valid_eq_true_iff _).mpr ⟨p.2, snd_mem_of_enumFrom hp, hne⟩
    have hb : is_valid ((splitComma s).drop groups.length) = false :=
      (is_valid_eq_false_iff _).mpr hbe
    rw [pstbOrd_above id id hlen ha hb]
    unfold ballot_above_the_lineOrd
    rw [atlLoop_err groups _ 0 [] ⟨p, hp, hne, hnp⟩
      (fun q hq _ _ => take_pos_lt hlen q hq)]
    rfl
  · have ha : is_valid ((splitComma s).take groups.length) = false :=
      (is_valid_eq_false_iff _).mpr hae
    have hb : is_valid ((splitComma s).drop groups.length) = true :=
      (is_valid_eq_true_iff _).mpr ⟨p.2, snd_mem_of_enumFrom hp, hne⟩
    rw [pstbOrd_below id id hlen ha hb]
    unfold ballot_below_the_lineOrd
    rw [btlLoop_err candidates _ 0 [] ⟨p, hp, hne, hnp⟩ hr]
    rfl

/-- Witness for C7 at a concrete input: the lone below-the-line token "x"
fails with `NonIntegerPreference`. -/
theorem C7_witness :
    pref_string_to_ballot "x" [] [] = some (.error NonIntegerPreference) :=
  C7_non_integer "x" [] [] (by decide)
    (Or.inr ⟨⟨(0, "x"), by decide, by decide, by decide⟩,
      by
        intro p hp hne hps
        have h' : ([(0, "x")] : List (Nat × String))[0]? = some (0, "x") := rfl
        have hpx : p = (0, "x") := by
          have : p ∈ ([(0, "x")] : List (Nat × String)) := hp
          simpa using this
        subst hpx
        simp [parseU32] at hps,
      by
        intro t ht
        simp at ht⟩)

/-- C1 counterexample: below the line, two non-empty tokens at positions
0 < 1 both carry preference number 1, yet the successful output contains
BOTH candidates (the map is keyed by candidate, so nothing is overwritten),
not just the later one. -/
theorem C1_counterexample :
    pref_string_to_ballot "1,1" [] [10, 11] = some (.ok [10, 11]) ∧
    pref_string_to_ballot "1,1" [] [10, 11] ≠ some (.ok [11]) := by
  decide

/-- C1 amended: in below-the-line decoding the mapping is keyed by the
candidate, not by the preference number, so a repeated preference number
overwrites nothing: whenever decode succeeds, the candidates of ALL
non-empty token positions — in particular both positions of a repeated
preference number — appear in the output. -/
theorem C1_no_overwrite (raw_prefs : List String) (candidates : List CandidateId)
    (l : List CandidateId) (i j : Nat) (ti tj : String) (ci cj : CandidateId)
    (h : ballot_below_the_line raw_prefs candidates = some (.ok l))
    (hi : raw_prefs[i]? = some ti) (hti : ti ≠ "")
    (hj : raw_prefs[j]? = some tj) (htj : tj ≠ "")
    (hci : candidates[i]? = some ci) (hcj : candidates[j]? = some cj) :
    ci ∈ l ∧ cj ∈ l := by
  unfold ballot_below_the_line ballot_below_the_lineOrd at h
  cases hloop : btlLoop candidates 0 raw_prefs [] with
  | none => rw [hloop] at h; cases h
  | some r =>
    rw [hloop] at h
    cases r with
    | error e => cases h
    | ok m =>
      replace h : some (Except.ok (pref_map_to_vec m)) = some (Except.ok l) := h
      simp only [Option.some.injEq, Except.ok.injEq] at h
      subst h
      have hperm : List.Perm ((sortByKey Prod.snd m).map Prod.fst) (m.map Prod.fst) :=
        (sortByKey_perm Prod.snd m).map Prod.fst
      constructor
      · obtain ⟨c, hc, hmem⟩ := btlLoop_ok_mem candidates raw_prefs 0 [] m hloop
          (i, ti) (enumFrom_mem_of_getElem hi) hti
        rw [hci] at hc
        cases hc
        exact hperm.mem_iff.mpr hmem
      · obtain ⟨c, hc, hmem⟩ := btlLoop_ok_mem candidates raw_prefs 0 [] m hloop
          (j, tj) (enumFrom_mem_of_getElem hj) htj
        rw [hcj] at hc
        cases hc
        exact hperm.mem_iff.mpr hmem

/-- Witness for C1 at a concrete input: both candidates of the two
positions sharing preference number 1 are in the output. -/
theorem C1_witness :
    (10 : CandidateId) ∈ ([10, 11] : List CandidateId) ∧
    (11 : CandidateId) ∈ ([10, 11] : List CandidateId) :=
  C1_no_overwrite ["1", "1"] [10, 11] [10, 11] 0 1 "1" "1" 10 11
    (by decide) rfl (by decide) rfl (by decide) rfl rfl

/-- The row filter of the candidate registry: keep a successfully decoded
row whose nomination type is the Senate marker "S". -/
def candFilter (p : Nat × Except String CandidateRow) : Bool :=
  match p.2 with
  | .ok row => row.nom_ty == "S"
  | .error _ => false

theorem pcfLoop_ids :
    ∀ (rows : List (Except String CandidateRow)) (id0 : Nat)
      (acc cs : List Candidate), pcfLoop id0 rows acc = .ok cs →
      cs.map (fun c => c.id) = acc.map (fun c => c.id) ++
        ((List.enumFrom id0 rows).filter candFilter).map
          (fun p => p.1 % 4294967296) := by
  intro rows
  induction rows with
  | nil =>
    intro id0 acc cs h
    simp only [pcfLoop] at h
    cases h
    simp [List.enumFrom]
  | cons raw rest ih =>
    intro id0 acc cs h
    simp only [pcfLoop] at h
    cases raw with
    | error e => cases h
    | ok row =>
      replace h : (if row.nom_ty ≠ "S" then pcfLoop (id0 + 1) rest acc
          else pcfLoop (id0 + 1) rest (acc ++
            [{ id := id0 % 4294967296, surname := row.surname,
               other_names := row.other_names, group_name := row.ticket,
               party := row.party, state := row.state_ab }])) = Except.ok cs := h
      by_cases hty : row.nom_ty = "S"
      · rw [if_neg (by simpa using hty)] at h
        have hfil : candFilter (id0, Except.ok row) = true := by
          simp [candFilter, hty]
        have : (List.enumFrom id0 (Except.ok row :: rest)).filter candFilter =
            (id0, Except.ok row) ::
              (List.enumFrom (id0 + 1) rest).filter candFilter := by
          simp [List.enumFrom, hfil]
        rw [this]
        have := ih (id0 + 1) _ cs h
        rw [this]
        simp
      · rw [if_pos (by simpa using hty)] at h
        have hfil : candFilter (id0, Except.ok row) = false := by
          simp [candFilter, hty]
        have hskip : (List.enumFrom id0 (Except.ok row :: rest)).filter candFilter =
            (List.enumFrom (id0 + 1) rest).filter candFilter := by
          simp [List.enumFrom, hfil]
        rw [hskip]
        exact ih (id0 + 1) acc cs h

/-- A sample candidate-file row with the given nomination type. -/
def mkCandidateRow (ty : String) : CandidateRow :=
  { txn_nm := "t", nom_ty := ty, state_ab := "NSW", div_nm := "", ticket := "A",
    ballot_position := 1, surname := "S", other_names := "O", party := "P",
    occupation := "", address_1 := "", address_2 := "", postcode := "",
    suburb := "", address_state := "", contact_work_ph := "",
    contact_home_ph := "", postal_address_1 := "", postal_address_2 := "",
    postal_suburb := "", postal_postcode := "", contact_fax := "",
    postal_state_ab := "", contact_mobile := "", contact_email := "" }

/-- C2 counterexample: with rows whose nomination types are "H" then "S",
the single accepted candidate receives id 1 — its index among ALL rows —
not id 0, the count of previously accepted rows; a dropped row therefore
does shift subsequent ids. -/
theorem C2_counterexample :
    (parse_candidates_file
        [.ok (mkCandidateRow "H"), .ok (mkCandidateRow "S")]).map
      (fun cs => cs.map (fun c => c.id)) = .ok [1] ∧
    (parse_candidates_file
        [.ok (mkCandidateRow "H"), .ok (mkCandidateRow "S")]).map
      (fun cs => cs.map (fun c => c.id)) ≠ .ok [0] := by
  decide

/-- C2 amended: rows whose nomination type is not "S" are dropped, and each
accepted row's id is its index among ALL decoded rows (accepted and
dropped) in encounter order, truncated to 32 bits — so dropped rows do
shift subsequent ids; the ids are 0, 1, 2, ... only when no preceding row
was dropped. -/
theorem C2_ids_are_row_indices (rows : List (Except String CandidateRow))
    (cs : List Candidate) (h : parse_candidates_file rows = .ok cs) :
    cs.map (fun c => c.id) =
      ((List.enumFrom 0 rows).filter candFilter).map
        (fun p => p.1 % 4294967296) := by
  have := pcfLoop_ids rows 0 [] cs h
  simpa using this

/-- Witness for C2 at a concrete input: rows "H" then "S" produce one
candidate and its id is the full row index 1. -/
theorem C2_witness :
    ([{ id := 1, surname := "S", other_names := "O", group_name := "A",
        party := "P", state := "NSW" }] : List Candidate).map (fun c => c.id) =
      ((List.enumFrom 0
          [Except.ok (mkCandidateRow "H"), Except.ok (mkCandidateRow "S")]).filter
        candFilter).map (fun p => p.1 % 4294967296) :=
  C2_ids_are_row_indices
    [Except.ok (mkCandidateRow "H"), Except.ok (mkCandidateRow "S")]
    [{ id := 1, surname := "S", other_names := "O", group_name := "A",
       party := "P", state := "NSW" }] (by decide)

/-- C6: an above-the-line string whose non-empty tokens assign pairwise
distinct preference numbers (in particular 1..k) to the marked groups, with
the below-the-line section all empty, decodes to the concatenation of those
groups' full candidate lists taken in ascending preference-number order
(`atl_spec_output`, which follows the spec's words), and the output length
is the sum of the numbered groups' sizes.  Distinctness is stated as
`Nodup` of the parsed preference numbers (the keys of `atl_entries`). -/
theorem C6_above_the_line (s : String) (groups : List Group)
    (candidates : List CandidateId)
    (hlen : groups.length ≤ (splitComma s).length)
    (hbe : ∀ t ∈ (splitComma s).drop groups.length, t = "")
    (hmarked : ∃ t ∈ (splitComma s).take groups.length, t ≠ "")
    (hparse : ∀ p ∈ List.enumFrom 0 ((splitComma s).take groups.length),
      p.2 ≠ "" → (parseU32 p.2).isSome)
    (hnew : ((atl_entries groups 0 ((splitComma s).take groups.length)).map
      Prod.fst).Nodup) :
    pref_string_to_ballot s groups candidates =
      some (.ok (atl_spec_output ((splitComma s).take groups.length) groups)) ∧
    (atl_spec_output ((splitComma s).take groups.length) groups).length =
      ((atl_entries groups 0 ((splitComma s).take groups.length)).map
        (fun e => e.2.length)).sum := by
  have ha : is_valid ((splitComma s).take groups.length) = true :=
    (is_valid_eq_true_iff _).mpr hmarked
  have hb : is_valid ((splitComma s).drop groups.length) = false :=
    (is_valid_eq_false_iff _).mpr hbe
  have hloop := atlLoop_ok_eq groups ((splitComma s).take groups.length) 0 []
    (fun p hp hne => ⟨hparse p hp hne, take_pos_lt hlen p hp⟩)
    (by intro k hk; simp at hk)
    hnew
  constructor
  · show pref_string_to_ballotOrd id id s groups candidates = _
    rw [pstbOrd_above id id hlen ha hb]
    unfold ballot_above_the_lineOrd
    rw [hloop]
    show some (Except.ok (List.foldl (fun prefs p => prefs ++ p.2) []
        (sortByKey Prod.fst
          ([] ++ atl_entries groups 0 ((splitComma s).take groups.length))))) = _
    rw [List.nil_append, foldl_append_eq_flatten Prod.snd, List.nil_append]
    rfl
  · unfold atl_spec_output
    rw [List.length_flatten, List.map_map]
    exact ((sortByKey_perm Prod.fst _).map _).sum_eq

/-- Witness for C6 at the spec's Example C: groups G1 = [1,2] and
G2 = [3] numbered 1 and 2 yield [1,2,3], of length |G1| + |G2| = 3. -/
theorem C6_witness :
    pref_string_to_ballot "1,2,,"
        [{ name := "G1", state := "X", candidate_ids := [1, 2] },
         { name := "G2", state := "X", candidate_ids := [3] }] [10, 11] =
      some (.ok (atl_spec_output ["1", "2"]
        [{ name := "G1", state := "X", candidate_ids := [1, 2] },
         { name := "G2", state := "X", candidate_ids := [3] }])) ∧
    (atl_spec_output ["1", "2"]
        [{ name := "G1", state := "X", candidate_ids := [1, 2] },
         { name := "G2", state := "X", candidate_ids := [3] }]).length =
      ((atl_entries
          [{ name := "G1", state := "X", candidate_ids := [1, 2] },
           { name := "G2", state := "X", candidate_ids := [3] }] 0
          ["1", "2"]).map (fun e => e.2.length)).sum :=
  C6_above_the_line "1,2,,"
    [{ name := "G1", state := "X", candidate_ids := [1, 2] },
     { name := "G2", state := "X", candidate_ids := [3] }] [10, 11]
    (by decide) (by decide) (by decide) (by decide) (by decide)

theorem btlLoop_ok (candidates : List CandidateId) :
    ∀ (l : List String) (idx : Nat) (m : List (CandidateId × Nat)),
      (∀ p ∈ List.enumFrom idx l, p.2 ≠ "" →
        (parseU32 p.2).isSome ∧ p.1 < candidates.length) →
      ∃ mf, btlLoop candidates idx l m = some (.ok mf) := by
  intro l
  induction l with
  | nil =>
    intro idx m _
    exact ⟨m, rfl⟩
  | cons t rest ih =>
    intro idx m hpr
    have hshift : ∀ p ∈ List.enumFrom (idx + 1) rest, p.2 ≠ "" →
        (parseU32 p.2).isSome ∧ p.1 < candidates.length :=
      fun p hp => hpr p (List.mem_cons_of_mem _ hp)
    simp only [btlLoop]
    by_cases ht : t.isEmpty
    · rw [if_pos ht]
      exact ih (idx + 1) m hshift
    · rw [if_neg ht]
      obtain ⟨hps, hidx⟩ := hpr (idx, t) (List.mem_cons_self _ _)
        (ne_empty_of_not_isEmpty ht)
      obtain ⟨q, hparse⟩ := Option.isSome_iff_exists.mp hps
      have hparse' : parseU32 t = some q := hparse
      have hidx' : idx < candidates.length := hidx
      obtain ⟨c, hc⟩ : ∃ c, candidates[idx]? = some c :=
        ⟨_, List.getElem?_eq_getElem hidx'⟩
      rw [hparse', hc]
      exact ih (idx + 1) _ hshift

/-- C9: a below-the-line string (above-the-line section all empty) whose
non-empty tokens all parse, index into the candidate list, and carry
strictly ascending preference numbers in position order — in particular the
distinct ascending numbers 1..k — decodes to exactly the candidates at
those token positions, in that order (`btl_selected`, which follows the
spec's words); ascending position order coincides with ascending
preference-number order.  Assumes the registry invariant that candidate
ids are pairwise distinct. -/
theorem C9_below_the_line (s : String) (groups : List Group)
    (candidates : List CandidateId)
    (hnd : candidates.Nodup)
    (hlen : groups.length ≤ (splitComma s).length)
    (hae : ∀ t ∈ (splitComma s).take groups.length, t = "")
    (hmarked : ∃ t ∈ (splitComma s).drop groups.length, t ≠ "")
    (hpr : ∀ p ∈ List.enumFrom 0 ((splitComma s).drop groups.length),
      p.2 ≠ "" → (parseU32 p.2).isSome ∧ p.1 < candidates.length)
    (hasc : ((btl_entries candidates 0 ((splitComma s).drop groups.length)).map
      Prod.snd).Pairwise (fun a b => a < b)) :
    pref_string_to_ballot s groups candidates =
      some (.ok (btl_selected ((splitComma s).drop groups.length) candidates)) := by
  have ha : is_valid ((splitComma s).take groups.length) = false :=
    (is_valid_eq_false_iff _).mpr hae
  have hb : is_valid ((splitComma s).drop groups.length) = true :=
    (is_valid_eq_true_iff _).mpr hmarked
  show pref_string_to_ballotOrd id id s groups candidates = _
  rw [pstbOrd_below id id hlen ha hb]
  obtain ⟨mf, hloop⟩ := btlLoop_ok candidates _ 0 [] hpr
  have hmf : mf = [] ++ btl_entries candidates 0 ((splitComma s).drop groups.length) :=
    btlLoop_ok_eq candidates hnd _ 0 [] mf (by intro p hp; simp at hp) hloop
  rw [List.nil_append] at hmf
  subst hmf
  unfold ballot_below_the_lineOrd
  rw [hloop]
  show some (Except.ok (pref_map_to_vec
      (btl_entries candidates 0 ((splitComma s).drop groups.length)))) = _
  unfold pref_map_to_vec btl_selected
  have hsorted : (btl_entries candidates 0
      ((splitComma s).drop groups.length)).Pairwise
      (fun a b => Prod.snd a ≤ Prod.snd b) :=
    (List.pairwise_map.mp hasc).imp (fun h => Nat.le_of_lt h)
  have hnodup : ((btl_entries candidates 0
      ((splitComma s).drop groups.length)).map Prod.snd).Nodup :=
    hasc.imp (fun h => Nat.ne_of_lt h)
  rw [sortByKey_eq_self Prod.snd hsorted hnodup]

/-- Witness for C9 at the spec's Example B: tokens ",,1,2" with two empty
above-the-line positions select candidates 10 then 11. -/
theorem C9_witness :
    pref_string_to_ballot ",,1,2"
        [{ name := "G1", state := "X", candidate_ids := [1, 2] },
         { name := "G2", state := "X", candidate_ids := [3] }] [10, 11] =
      some (.ok (btl_selected ["1", "2"] [10, 11])) :=
  C9_below_the_line ",,1,2"
    [{ name := "G1", state := "X", candidate_ids := [1, 2] },
     { name := "G2", state := "X", candidate_ids := [3] }] [10, 11]
    (by decide) (by decide) (by decide) (by decide) (by decide) (by decide)

/-- Reordering the above-the-line map's entries by any permutation (any
hash-map iteration order) does not change the result: the sort by the
map's pairwise-distinct keys determines the output uniquely. -/
theorem atlOrd_indep
    (σa : List (Nat × List CandidateId) → List (Nat × List CandidateId))
    (hσa : ∀ m, List.Perm (σa m) m)
    (raw_prefs : List String) (groups : List Group) :
    ballot_above_the_lineOrd σa raw_prefs groups =
      ballot_above_the_lineOrd id raw_prefs groups := by
  unfold ballot_above_the_lineOrd
  cases hl : atlLoop groups 0 raw_prefs [] with
  | none => rfl
  | some r =>
    cases r with
    | error e => rfl
    | ok m =>
      have hknd : (m.map Prod.fst).Nodup :=
        atlLoop_ok_keys_nodup groups raw_prefs 0 [] m (by simp) hl
      have hs : sortByKey Prod.fst (σa m) = sortByKey Prod.fst m :=
        sortByKey_eq_of_perm Prod.fst (hσa m)
          (((hσa m).map Prod.fst).nodup_iff.mpr hknd)
      simp only [hs]
      rfl

/-- Reordering the below-the-line map's entries by any permutation does
not change the result when the stored preference numbers are pairwise
distinct (their tie order is what the hash map's iteration order decides). -/
theorem btlOrd_indep
    (σb : List (CandidateId × Nat) → List (CandidateId × Nat))
    (hσb : ∀ m, List.Perm (σb m) m)
    (raw_prefs : List String) (candidates : List CandidateId)
    (hnd : candidates.Nodup)
    (hsnd : ((btl_entries candidates 0 raw_prefs).map Prod.snd).Nodup) :
    ballot_below_the_lineOrd σb raw_prefs candidates =
      ballot_below_the_lineOrd id raw_prefs candidates := by
  unfold ballot_below_the_lineOrd
  cases hl : btlLoop candidates 0 raw_prefs [] with
  | none => rfl
  | some r =>
    cases r with
    | error e => rfl
    | ok m =>
      have hm : m = [] ++ btl_entries candidates 0 raw_prefs :=
        btlLoop_ok_eq candidates hnd raw_prefs 0 [] m
          (by intro p hp; simp at hp) hl
      rw [List.nil_append] at hm
      subst hm
      have hs : sortByKey Prod.snd (σb (btl_entries candidates 0 raw_prefs)) =
          sortByKey Prod.snd (btl_entries candidates 0 raw_prefs) :=
        sortByKey_eq_of_perm Prod.snd (hσb _)
          (((hσb _).map Prod.snd).nodup_iff.mpr hsnd)
      unfold pref_map_to_vec
      simp only [hs]
      rfl

/-- C4 counterexample: decode's output is NOT independent of the hash
map's iteration order when two below-the-line tokens share a preference
number.  `List.reverse` is a permutation of the map's two entries (a
legitimate iteration order of the same map contents), and the two
iteration orders produce different outputs for identical string, group and
candidate arguments — in Rust, per-instance randomized `HashMap` seeds make
exactly this order vary between two calls. -/
theorem C4_counterexample :
    List.Perm (List.reverse [((10 : CandidateId), (1 : Nat)), (11, 1)])
      [((10 : CandidateId), (1 : Nat)), (11, 1)] ∧
    pref_string_to_ballotOrd List.reverse id "1,1" [] [10, 11] ≠
      pref_string_to_ballotOrd id id "1,1" [] [10, 11] := by
  decide

/-- C4 amended: decode never mutates its inputs (inherent in the purely
functional model), and its result is independent of the hash maps'
iteration orders — hence identical across calls with identical arguments —
above the line always, and below the line provided no two non-empty tokens
share a preference number; with a repeated below-the-line preference
number only the relative order of the tied candidates may vary. -/
theorem C4_deterministic (s : String) (groups : List Group)
    (candidates : List CandidateId)
    (σb : List (CandidateId × Nat) → List (CandidateId × Nat))
    (σa : List (Nat × List CandidateId) → List (Nat × List CandidateId))
    (hσb : ∀ m, List.Perm (σb m) m) (hσa : ∀ m, List.Perm (σa m) m)
    (hnd : candidates.Nodup)
    (hsnd : ((btl_entries candidates 0 ((splitComma s).drop groups.length)).map
      Prod.snd).Nodup) :
    pref_string_to_ballotOrd σb σa s groups candidates =
      pref_string_to_ballot s groups candidates := by
  show _ = pref_string_to_ballotOrd id id s groups candidates
  by_cases hlt : (splitComma s).length < groups.length
  · unfold pref_string_to_ballotOrd
    rw [if_pos hlt, if_pos hlt]
  · have hlen : groups.length ≤ (splitComma s).length := Nat.not_lt.mp hlt
    cases hva : is_valid ((splitComma s).take groups.length) <;>
      cases hvb : is_valid ((splitComma s).drop groups.length)
    · rw [pstbOrd_neither σb σa hlen hva hvb, pstbOrd_neither id id hlen hva hvb]
    · rw [pstbOrd_below σb σa hlen hva hvb, pstbOrd_below id id hlen hva hvb]
      exact btlOrd_indep σb hσb _ candidates hnd hsnd
    · rw [pstbOrd_above σb σa hlen hva hvb, pstbOrd_above id id hlen hva hvb]
      exact atlOrd_indep σa hσa _ groups
    · rw [pstbOrd_both σb σa hlen hva hvb, pstbOrd_both id id hlen hva hvb]

/-- Witness for C4 at a concrete input with distinct preference numbers:
the reversed iteration order gives the same result as the canonical one. -/
theorem C4_witness :
    pref_string_to_ballotOrd List.reverse id "1,2" [] [10, 11] =
      pref_string_to_ballot "1,2" [] [10, 11] :=
  C4_deterministic "1,2" [] [10, 11] List.reverse id
    (fun m => List.reverse_perm m) (fun m => List.Perm.refl m)
    (by decide) (by decide)

end Election2016
